import Mathlib

/-!
Verification development for the NNI repository slice consisting of
`ts/webui/src/static/function.ts` (metric parsing, final-result extraction,
table sorting helpers), the REST handler `rest_server/nniRestHandler.ts`
(error translation, cluster-metadata handler, trial-job handlers, two-phase
stop) and the Hyperband documentation (the `R = 81`, `eta = 3` bucket table).

JavaScript numbers are modelled symbolically: a finite decimal is a
mantissa/exponent pair (`Dec`, denoting `m * 10 ^ e`) and the non-finite
values `NaN`, `Infinity` and `-Infinity` are separate constructors of `JNum`.
The functions under study never perform float arithmetic: they only test a
value against `NaN` / `Infinity` via `Object.is` and pass it through, so this
embedding is exact for them.  Strings are modelled as `List Char`.
-/

/-! ### Decimal digits and numbers -/

/-- The character for a single decimal digit (`0 ≤ d ≤ 9`). -/
def digitChar (d : Nat) : Char :=
  if d = 0 then '0' else if d = 1 then '1' else if d = 2 then '2'
  else if d = 3 then '3' else if d = 4 then '4' else if d = 5 then '5'
  else if d = 6 then '6' else if d = 7 then '7' else if d = 8 then '8' else '9'

/-- Numeric value of a decimal digit character (garbage for non-digits). -/
def charDigitVal (c : Char) : Nat :=
  if c = '1' then 1 else if c = '2' then 2 else if c = '3' then 3
  else if c = '4' then 4 else if c = '5' then 5 else if c = '6' then 6
  else if c = '7' then 7 else if c = '8' then 8 else if c = '9' then 9 else 0

/-- Big-endian decimal digit characters of a positive natural number; the
fuel argument (any bound on `n`) makes the recursion structural so that the
definition evaluates inside the kernel. -/
def natToCharsAux : Nat → Nat → List Char
  | 0, _ => []
  | fuel + 1, n => if n = 0 then [] else natToCharsAux fuel (n / 10) ++ [digitChar (n % 10)]

/-- Big-endian decimal representation of a natural number. -/
def natToChars (n : Nat) : List Char :=
  if n = 0 then ['0'] else natToCharsAux n n

/-- Read a big-endian string of decimal digit characters as a natural number. -/
def charsToNat (cs : List Char) : Nat :=
  cs.foldl (fun acc c => 10 * acc + charDigitVal c) 0

/-- Decimal representation of an integer (minus sign plus digits). -/
def intToChars (i : Int) : List Char :=
  (if i < 0 then ['-'] else []) ++ natToChars i.natAbs

/-- A finite JavaScript number, written symbolically as `m * 10 ^ e`.
The embedding never rounds: the JSON texts handled by the claims carry
decimal literals, which this type represents exactly. -/
structure Dec where
  m : Int
  e : Int
deriving DecidableEq, Repr

/-- Serialization of a finite decimal as a JSON number literal
`<mantissa>e<exponent>` (always valid JSON number syntax). -/
def encodeDec (d : Dec) : List Char :=
  intToChars d.m ++ 'e' :: intToChars d.e

/-- A JavaScript number: finite decimal, `NaN`, `Infinity` or `-Infinity`. -/
inductive JNum where
  | finite (d : Dec)
  | nan
  | posInf
  | negInf
deriving DecidableEq, Repr

/-! ### Substring search (model of `String.prototype.includes`) -/

/-- Whether the first list is a prefix of the second. -/
def isPre : List Char → List Char → Bool
  | [], _ => true
  | _ :: _, [] => false
  | a :: as, b :: bs => a == b && isPre as bs

/-- Whether `needle` occurs as a contiguous substring of `hay`
(model of JavaScript `hay.includes(needle)`). -/
def hasSub (hay needle : List Char) : Bool :=
  match hay with
  | [] => needle.isEmpty
  | _ :: t => isPre needle hay || hasSub t needle

/-- The literal searched for by `parseMetrics`: `NaN`. -/
def nanLit : List Char := ['N', 'a', 'N']

/-- The literal searched for by `parseMetrics`: `Infinity`. -/
def infinityLit : List Char := ['I', 'n', 'f', 'i', 'n', 'i', 't', 'y']

/-! ### JSON string literals -/

/-- JSON escaping of a single character inside a string literal (only `"` and
`\` need escaping for the texts produced by the metric encoders; other
characters pass through). -/
def escapeChar (c : Char) : List Char :=
  if c = '"' ∨ c = '\\' then ['\\', c] else [c]

/-- Body of a JSON string literal for the character list `s`. -/
def escBody (s : List Char) : List Char :=
  s.foldr (fun c acc => escapeChar c ++ acc) []

/-- A full JSON string literal: opening quote, escaped body, closing quote. -/
def encodeString (s : List Char) : List Char :=
  '"' :: escBody s ++ ['"']

/-- Resolve a backslash escape inside a JSON string literal.  Unicode
escapes (`\uXXXX`) are not produced by the encoders modelled here and are
rejected. -/
def unescapeChar (c : Char) : Option Char :=
  if c = '"' then some '"'
  else if c = '\\' then some '\\'
  else if c = '/' then some '/'
  else if c = 'b' then some (Char.ofNat 8)
  else if c = 'f' then some (Char.ofNat 12)
  else if c = 'n' then some (Char.ofNat 10)
  else if c = 'r' then some (Char.ofNat 13)
  else if c = 't' then some (Char.ofNat 9)
  else none

/-- Parse the body of a JSON string literal after the opening quote; returns
the decoded characters and the remaining input after the closing quote. -/
def parseStringBody : List Char → Option (List Char × List Char)
  | [] => none
  | c :: rest =>
    if c = '"' then some ([], rest)
    else if c = '\\' then
      match rest with
      | [] => none
      | e :: rest2 =>
        match unescapeChar e, parseStringBody rest2 with
        | some u, some (s, r) => some (u :: s, r)
        | _, _ => none
    else
      match parseStringBody rest with
      | some (s, r) => some (c :: s, r)
      | none => none

/-! ### JSON number literals -/

/-- JSON whitespace characters. -/
def isWsChar (c : Char) : Bool :=
  c = ' ' ∨ c = '\t' ∨ c = '\n' ∨ c = '\r'

/-- Skip leading JSON whitespace. -/
def skipWs (cs : List Char) : List Char :=
  cs.dropWhile isWsChar

/-- Strip a leading minus sign, reporting whether one was present. -/
def splitSign (cs : List Char) : Bool × List Char :=
  match cs with
  | [] => (false, [])
  | c :: t => if c = '-' then (true, t) else (false, cs)

/-- Parse an optional fraction part `.digits`; returns the fraction digits
(empty when absent) and the rest. -/
def parseFracPart (cs : List Char) : Option (List Char × List Char) :=
  match cs with
  | [] => some ([], [])
  | c :: t =>
    if c = '.' then
      let ds := t.takeWhile Char.isDigit
      if ds = [] then none else some (ds, t.dropWhile Char.isDigit)
    else some ([], cs)

/-- Parse an optional exponent part `e[+-]digits`; returns the signed
exponent value (0 when absent) and the rest. -/
def parseExpPart (cs : List Char) : Option (Int × List Char) :=
  match cs with
  | [] => some (0, [])
  | c :: t =>
    if c = 'e' ∨ c = 'E' then
      let (pos, t1) :=
        match t with
        | [] => (true, ([] : List Char))
        | s :: t2 => if s = '+' then (true, t2) else if s = '-' then (false, t2) else (true, t)
      let ds := t1.takeWhile Char.isDigit
      if ds = [] then none
      else
        let v : Int := Int.ofNat (charsToNat ds)
        some (if pos then v else -v, t1.dropWhile Char.isDigit)
    else some (0, cs)

/-- Parse a JSON decimal number literal (sign, integer part without leading
zeros, optional fraction, optional exponent) into a `Dec`. -/
def parseDecCore (cs : List Char) : Option (Dec × List Char) :=
  let (neg, cs1) := splitSign cs
  let ds := cs1.takeWhile Char.isDigit
  let cs2 := cs1.dropWhile Char.isDigit
  if ds = [] then none
  else if 1 < ds.length ∧ ds.head? = some '0' then none
  else
    match parseFracPart cs2 with
    | none => none
    | some (fds, cs3) =>
      match parseExpPart cs3 with
      | none => none
      | some (ev, cs4) =>
        let m0 : Int := Int.ofNat (charsToNat (ds ++ fds))
        some (⟨if neg then -m0 else m0, ev - Int.ofNat fds.length⟩, cs4)

/-- Parse a numeric token.  In tolerant (JSON5) mode the literals `NaN`,
`Infinity`, `+Infinity` and `-Infinity` and a leading `+` sign are also
accepted; strict mode only accepts plain JSON decimals. -/
def parseNumberTok (strict : Bool) (cs : List Char) : Option (JNum × List Char) :=
  if strict then
    match parseDecCore cs with
    | some (d, r) => some (.finite d, r)
    | none => none
  else if isPre nanLit cs then
    some (.nan, cs.drop nanLit.length)
  else if isPre infinityLit cs then
    some (.posInf, cs.drop infinityLit.length)
  else if isPre ('-' :: infinityLit) cs then
    some (.negInf, cs.drop ('-' :: infinityLit).length)
  else if isPre ('+' :: infinityLit) cs then
    some (.posInf, cs.drop ('+' :: infinityLit).length)
  else
    let cs2 :=
      match cs with
      | c :: t => if c = '+' then t else cs
      | [] => cs
    match parseDecCore cs2 with
    | some (d, r) => some (.finite d, r)
    | none => none

/-! ### JSON documents -/

/-- A parsed JSON document, as produced by `JSON.parse` / `JSON5.parse`.
Object fields are kept as an association list in source order. -/
inductive JsonValue where
  | null
  | bool (b : Bool)
  | num (n : JNum)
  | str (s : List Char)
  | arr (elems : List JsonValue)
  | obj (fields : List (List Char × JsonValue))

/-- The literal `true`. -/
def trueLit : List Char := ['t', 'r', 'u', 'e']

/-- The literal `false`. -/
def falseLit : List Char := ['f', 'a', 'l', 's', 'e']

/-- The literal `null`. -/
def nullLit : List Char := ['n', 'u', 'l', 'l']

mutual

/-- Recursive-descent JSON value parser.  `fuel` bounds the nesting depth
(each recursive step consumes one unit); `strict` selects `JSON.parse`
(true) versus the tolerant `JSON5.parse` model (false), which additionally
accepts the non-finite number literals. -/
def parseValue : Nat → Bool → List Char → Option (JsonValue × List Char)
  | 0, _, _ => none
  | fuel + 1, strict, cs0 =>
    match skipWs cs0 with
    | [] => none
    | c :: rest =>
      if c = '{' then
        match skipWs rest with
        | [] => none
        | c2 :: r2 =>
          if c2 = '}' then some (.obj [], r2)
          else
            match parseFields fuel strict (c2 :: r2) with
            | some (fs, r) => some (.obj fs, r)
            | none => none
      else if c = '[' then
        match skipWs rest with
        | [] => none
        | c2 :: r2 =>
          if c2 = ']' then some (.arr [], r2)
          else
            match parseElems fuel strict (c2 :: r2) with
            | some (vs, r) => some (.arr vs, r)
            | none => none
      else if c = '"' then
        match parseStringBody rest with
        | some (s, r) => some (.str s, r)
        | none => none
      else if isPre trueLit (c :: rest) then
        some (.bool true, (c :: rest).drop trueLit.length)
      else if isPre falseLit (c :: rest) then
        some (.bool false, (c :: rest).drop falseLit.length)
      else if isPre nullLit (c :: rest) then
        some (.null, (c :: rest).drop nullLit.length)
      else
        match parseNumberTok strict (c :: rest) with
        | some (n, r) => some (.num n, r)
        | none => none

/-- Parse one or more `"key": value` fields followed by `}`; the input
starts at the first key. -/
def parseFields : Nat → Bool → List Char → Option (List (List Char × JsonValue) × List Char)
  | 0, _, _ => none
  | fuel + 1, strict, cs =>
    match cs with
    | [] => none
    | c :: rest =>
      if c = '"' then
        match parseStringBody rest with
        | some (k, r1) =>
          match skipWs r1 with
          | [] => none
          | c2 :: r3 =>
            if c2 = ':' then
              match parseValue fuel strict r3 with
              | some (v, r4) =>
                match skipWs r4 with
                | [] => none
                | c3 :: r6 =>
                  if c3 = ',' then
                    match parseFields fuel strict (skipWs r6) with
                    | some (fs, r7) => some ((k, v) :: fs, r7)
                    | none => none
                  else if c3 = '}' then some ([(k, v)], r6)
                  else none
              | none => none
            else none
        | none => none
      else none

/-- Parse one or more array elements followed by `]`; the input starts at
the first element. -/
def parseElems : Nat → Bool → List Char → Option (List JsonValue × List Char)
  | 0, _, _ => none
  | fuel + 1, strict, cs =>
    match parseValue fuel strict cs with
    | some (v, r) =>
      match skipWs r with
      | [] => none
      | c :: r2 =>
        if c = ',' then
          match parseElems fuel strict r2 with
          | some (vs, r3) => some (v :: vs, r3)
          | none => none
        else if c = ']' then some ([v], r2)
        else none
    | none => none

end

/-- Parse a complete JSON document: one value with nothing but whitespace
after it.  The fuel `length + 1` suffices because every nesting level
consumes at least one input character. -/
def parseDoc (strict : Bool) (cs : List Char) : Option JsonValue :=
  match parseValue (cs.length + 1) strict cs with
  | some (v, rest) => if skipWs rest = [] then some v else none
  | none => none

/-- Model of the strict `JSON.parse`. -/
def jsonParse (cs : List Char) : Option JsonValue :=
  parseDoc true cs

/-- Model of the tolerant `JSON5.parse` (accepts `NaN` / `Infinity`
literals; the other JSON5 relaxations are not exercised by the metric
payloads modelled here). -/
def json5Parse (cs : List Char) : Option JsonValue :=
  parseDoc false cs

/-- The characters of `[object Object]`, JavaScript's default string
coercion of a plain object. -/
def objectObjectLit : List Char :=
  ['[', 'o', 'b', 'j', 'e', 'c', 't', ' ', 'O', 'b', 'j', 'e', 'c', 't', ']']

/-- String rendering of a JavaScript number (used only by the string
coercion below; `toString` of a finite decimal reuses the literal form). -/
def jnumToChars : JNum → List Char
  | .finite d => encodeDec d
  | .nan => nanLit
  | .posInf => infinityLit
  | .negInf => '-' :: infinityLit

mutual

/-- JavaScript `ToString` coercion of a parsed JSON value, as applied by
`JSON.parse(x)` when `x` is not already a string (model of the builtin;
arrays join their elements with commas, objects print `[object Object]`). -/
def jsToChars : JsonValue → List Char
  | .null => nullLit
  | .bool true => trueLit
  | .bool false => falseLit
  | .num n => jnumToChars n
  | .str s => s
  | .obj _ => objectObjectLit
  | .arr xs => jsListToChars xs

/-- Comma-joined string coercion of a list of values (model of
`Array.prototype.toString`). -/
def jsListToChars : List JsonValue → List Char
  | [] => []
  | [v] => jsToChars v
  | v :: vs => jsToChars v ++ ',' :: jsListToChars vs

end

/-- Two tolerant decodes in sequence: `JSON5.parse(JSON5.parse(s))`,
with the inner result coerced to a string for the outer call. -/
def json5ParseTwice (cs : List Char) : Option JsonValue :=
  match json5Parse cs with
  | some v => json5Parse (jsToChars v)
  | none => none

/-- Two strict decodes in sequence: `JSON.parse(JSON.parse(s))`. -/
def jsonParseTwice (cs : List Char) : Option JsonValue :=
  match jsonParse cs with
  | some v => jsonParse (jsToChars v)
  | none => none

/-- Embedding of `parseMetrics` (ts/webui/src/static/function.ts): decode the
payload twice, with `JSON5.parse` when the raw text contains the substring
`NaN` or `Infinity` and with `JSON.parse` otherwise.  A parse error in
either decode is an exception in the source, modelled as `none`. -/
def parseMetrics (metricData : List Char) : Option JsonValue :=
  if hasSub metricData nanLit || hasSub metricData infinityLit then
    match json5Parse metricData with
    | some v => json5Parse (jsToChars v)
    | none => none
  else
    match jsonParse metricData with
    | some v => jsonParse (jsToChars v)
    | none => none

/-! ### Serializers (the two wire-format encoders)

The encoders below model the producer side of the metric wire format, which
is not part of this repository slice. -/

mutual

/-- Modelled from the spec: serializer producing the inner representation of
a metric report (`a JSON value, possibly double-encoded to carry non-finite
numbers`).  With `j5 = true` it writes the JSON5 literals `NaN`, `Infinity`
and `-Infinity` for non-finite numbers (the sentinel encoding of the
Python-side dump, which is not part of this repository); with `j5 = false`
it is a model of the strict `JSON.stringify`, which writes `null` for
non-finite numbers. -/
def stringifyVal (j5 : Bool) : JsonValue → List Char
  | .null => nullLit
  | .bool true => trueLit
  | .bool false => falseLit
  | .num (.finite d) => encodeDec d
  | .num .nan => if j5 then nanLit else nullLit
  | .num .posInf => if j5 then infinityLit else nullLit
  | .num .negInf => if j5 then '-' :: infinityLit else nullLit
  | .str s => encodeString s
  | .arr xs => '[' :: stringifyArr j5 xs ++ [']']
  | .obj fs => '{' :: stringifyObj j5 fs ++ ['}']

/-- Comma-separated serialization of array elements. -/
def stringifyArr (j5 : Bool) : List JsonValue → List Char
  | [] => []
  | [v] => stringifyVal j5 v
  | v :: vs => stringifyVal j5 v ++ ',' :: stringifyArr j5 vs

/-- Comma-separated serialization of object fields. -/
def stringifyObj (j5 : Bool) : List (List Char × JsonValue) → List Char
  | [] => []
  | [(k, v)] => encodeString k ++ ':' :: stringifyVal j5 v
  | (k, v) :: fs => encodeString k ++ ':' :: stringifyVal j5 v ++ ',' :: stringifyObj j5 fs

end

/-- Modelled from the spec: the sentinel double-JSON encoding of a metric
value — the serialized value is itself wrapped as a JSON string literal, so
the payload `must be decoded twice`. -/
def doubleEncode (v : JsonValue) : List Char :=
  encodeString (stringifyVal true v)

/-! ### Final-result extraction (`isNaNorInfinity`, `getFinal`) -/

/-- Embedding of `isNaNorInfinity` (ts/webui/src/static/function.ts):
`Object.is(val, NaN) || Object.is(val, Infinity)`.  `Object.is` against the
two constants holds exactly when the value is that constant, so negative
infinity is not detected. -/
def isNaNorInfinity (val : JNum) : Bool :=
  val == JNum.nan || val == JNum.posInf

/-- The object key `default`. -/
def defaultKey : List Char := ['d', 'e', 'f', 'a', 'u', 'l', 't']

/-- Model of `hasOwnProperty` on a parsed JSON object. -/
def hasOwnField (fields : List (List Char × JsonValue)) (k : List Char) : Bool :=
  fields.any (fun f => f.1 == k)

/-- A metric record as consumed by `getFinal`; the function reads only the
`data` field (the raw payload string) of the last record. -/
structure MetricDataRecord where
  data : List Char

/-- Embedding of `getFinal` (ts/webui/src/static/function.ts).  `undefined`
inputs and results are `none`; a thrown exception (out-of-range access on an
empty list, a `parseMetrics` parse error, or `hasOwnProperty` on `null`,
since `typeof null === 'object'`) is `Except.error`.  A parsed number that
is not `NaN`/`Infinity` is wrapped as `{default: n}`; arrays and objects
without a `default` key fall through every branch and return `undefined`. -/
def getFinal (final : Option (List MetricDataRecord)) :
    Except Unit (Option JsonValue) :=
  match final with
  | none => .ok none
  | some recs =>
    match recs.getLast? with
    | none => .error ()
    | some r =>
      match parseMetrics r.data with
      | none => .error ()
      | some showDefault =>
        match showDefault with
        | .num n =>
          if isNaNorInfinity n = false then .ok (some (.obj [(defaultKey, .num n)]))
          else .ok none
        | .arr _ => .ok none
        | .obj fields =>
          if hasOwnField fields defaultKey then .ok (some (.obj fields)) else .ok none
        | .null => .error ()
        | .str _ => .ok none
        | .bool _ => .ok none

/-! ### REST handler (`nniRestHandler.ts`) -/

/-- The error name checked by `handleError`.  Modelled from the spec: the
`NNIErrorNames` module is not part of this repository slice; the spec calls
the kind `NOT_FOUND`. -/
def notFoundName : String := "NOT_FOUND"

/-- A JavaScript error as observed by the handler: whether it is an
`NNIError` (`instanceof`), its `name` and its `message`. -/
structure JsError where
  isNNIError : Bool
  name : String
  message : String
deriving DecidableEq, Repr

/-- The JSON body written by a handler response. -/
inductive RespBody where
  /-- `res.send()` with no body. -/
  | empty
  /-- `res.send({error: message})`. -/
  | errorBody (message : String)
  /-- `res.send({sequenceId})`. -/
  | sequenceIdBody (sequenceId : Nat)
deriving DecidableEq, Repr

/-- An HTTP response as assembled by the handler. -/
structure RestResponse where
  status : Nat
  body : RespBody
deriving DecidableEq, Repr

/-- Embedding of `NNIRestHandler.handleError`: status 404 when the error is
an `NNIError` named `NOT_FOUND`, otherwise the caller-supplied `errorCode`
(500 at every call from an orchestrator operation); the body is always
`{error: err.message}`.  The second component records whether the process
was terminated (`process.exit(1)` when `isFatal`). -/
def handleError (err : JsError) (isFatal : Bool) (errorCode : Nat) :
    RestResponse × Bool :=
  let status := if err.isNNIError = true ∧ err.name = notFoundName then 404 else errorCode
  ({ status := status, body := .errorBody err.message }, isFatal)

/-- The `errorCode` every orchestrator-operation handler passes to
`handleError` (the parameter's default; only the tensorboard-start handler,
which is not an orchestrator operation, overrides it with 400). -/
def orchestratorErrorCode : Nat := 500

/-- Modelled from the spec: `NNIError.FromError` (the `common/errors`
module is not part of this repository slice): an `NNIError` is returned
unchanged, any other error is wrapped as an `NNIError` preserving name and
message. -/
def nniErrorFromError (e : JsError) : JsError :=
  if e.isNNIError then e else { e with isNNIError := true }

/-- Run `setClusterMetadata` over the keys in order, stopping at the first
failure (the source `await`s each call inside one `try`). -/
def runSetClusterMetadata (keys : List String)
    (setMeta : String → Except JsError Unit) : Except JsError Unit :=
  match keys with
  | [] => .ok ()
  | k :: ks =>
    match setMeta k with
    | .error e => .error e
    | .ok _ => runSetClusterMetadata ks setMeta

/-- Embedding of the `PUT /experiment/cluster-metadata` handler: apply
`setClusterMetadata` to every key of the request body; on success send an
empty 200, on any failure translate the error with `handleError(err, res,
true)` — the fatal flag, so the process exits.  The second component is the
process-exited flag. -/
def setClusterMetaDataHandler (keys : List String)
    (setMeta : String → Except JsError Unit) : RestResponse × Bool :=
  match runSetClusterMetadata keys setMeta with
  | .ok _ => ({ status := 200, body := .empty }, false)
  | .error e => handleError (nniErrorFromError e) true orchestratorErrorCode

/-! ### Trial-job handlers -/

/-- A trial job as serialized to the dashboard (the fields of
`TrialJobInfo` read or written by the handler, plus untouched ones used to
state the frame property). -/
structure TrialJobInfo where
  trialJobId : String
  status : String
  logPath : Option String
  stderrPath : Option String
  sequenceId : Nat
  startTime : Option Nat
  endTime : Option Nat
deriving DecidableEq, Repr

/-- The status string checked by `setErrorPathForFailedJob`. -/
def failedStatus : String := "FAILED"

/-- The file name appended for failed jobs. -/
def stderrName : String := "stderr"

/-- Path separator. -/
def slashStr : String := "/"

/-- Model of Node's `path.join` for one extra component: insert a `/`
unless the base already ends with one (or is empty). -/
def pathJoin (a b : String) : String :=
  if a = "" then b
  else if a.endsWith slashStr then a ++ b
  else a ++ slashStr ++ b

/-- Embedding of `NNIRestHandler.setErrorPathForFailedJob` on a defined
job: when the status is `FAILED` and `logPath` is defined, set `stderrPath`
to `path.join(logPath, 'stderr')`; otherwise return the job unchanged. -/
def setErrorPathForFailedJobCore (j : TrialJobInfo) : TrialJobInfo :=
  if j.status = failedStatus then
    match j.logPath with
    | some lp => { j with stderrPath := some (pathJoin lp stderrName) }
    | none => j
  else j

/-- Embedding of `NNIRestHandler.setErrorPathForFailedJob` including the
`jobInfo === undefined` guard. -/
def setErrorPathForFailedJob (jobInfo : Option TrialJobInfo) : Option TrialJobInfo :=
  match jobInfo with
  | none => none
  | some j => some (setErrorPathForFailedJobCore j)

/-- Embedding of the `GET /trial-jobs` handler's success path: apply
`setErrorPathForFailedJob` to every job returned by `listTrialJobs` before
sending. -/
def listTrialJobsHandler (jobInfos : List TrialJobInfo) : List TrialJobInfo :=
  jobInfos.map setErrorPathForFailedJobCore

/-- Embedding of the `GET /trial-jobs/:id` handler's success path. -/
def getTrialJobHandler (jobDetail : TrialJobInfo) : TrialJobInfo :=
  setErrorPathForFailedJobCore jobDetail

/-- Name of the orchestrator operation invoked by `POST /trial-jobs`. -/
def addCustomizedTrialJobName : String := "addCustomizedTrialJob"

/-- Embedding of the `POST /trial-jobs` handler: invoke
`addCustomizedTrialJob(JSON.stringify(req.body))`; on success send
`{sequenceId}`, on failure translate with `handleError`.  The second
component is the trace of orchestrator calls (operation name and argument)
the handler makes — exactly one, with the stringified request body. -/
def addTrialJobHandler (reqBody : JsonValue)
    (addCustomizedTrialJob : List Char → Except JsError Nat) :
    (RestResponse × Bool) × List (String × List Char) :=
  let arg := stringifyVal false reqBody
  (match addCustomizedTrialJob arg with
   | .ok sequenceId => ({ status := 200, body := .sequenceIdBody sequenceId }, false)
   | .error e => handleError e false orchestratorErrorCode,
   [(addCustomizedTrialJobName, arg)])

/-! ### Two-phase stop (`DELETE /experiment`) -/

/-- Observable events of the `DELETE /experiment` handler. -/
inductive StopEvent where
  /-- `stopExperimentTopHalf()` resolved. -/
  | topHalfCompleted
  /-- `res.send()` executed. -/
  | responseSent
  /-- `stopExperimentBottomHalf()` invoked. -/
  | bottomHalfInvoked
deriving DecidableEq, Repr

/-- Embedding of the `DELETE /experiment` handler as its event trace:
`stopExperimentTopHalf().then(() => { res.send(); stopExperimentBottomHalf(); })`.
The `then` callback runs only if the top half resolves; inside it the
response is sent and only then is the bottom half invoked.  There is no
rejection handler, so a failed top half produces no further events. -/
def stopHandlerTrace (topHalfResult : Except JsError Unit) : List StopEvent :=
  match topHalfResult with
  | .ok _ => [.topHalfCompleted, .responseSent, .bottomHalfInvoked]
  | .error _ => []

/-! ### Table sorting (`copyAndSort`) -/

/-- A JavaScript value as stored in a table row column. `objRef` covers
objects and arrays (`typeof` is `'object'`; the tag models reference
identity and is never inspected by the comparator). -/
inductive JsVal where
  | jsUndefined
  | jsNull
  | bool (b : Bool)
  | num (n : JNum)
  | str (s : List Char)
  | objRef (tag : Nat)
deriving DecidableEq, Repr

/-- JavaScript `typeof v === 'object'`: true for objects, arrays and
`null`. -/
def typeofIsObject : JsVal → Bool
  | .jsNull => true
  | .objRef _ => true
  | _ => false

/-- The disqualifying test applied by the `copyAndSort` comparator to a
sort key: `undefined`, `Object.is(·, NaN)`, `Object.is(·, Infinity)`,
`Object.is(·, -Infinity)` or `typeof · === 'object'`. -/
def badSortKey (v : JsVal) : Bool :=
  v == JsVal.jsUndefined || v == JsVal.num JNum.nan || v == JsVal.num JNum.posInf ||
    v == JsVal.num JNum.negInf || typeofIsObject v

/-- Rational value of a finite decimal. -/
def decValue (d : Dec) : ℚ :=
  (d.m : ℚ) * (10 : ℚ) ^ d.e

/-- Numeric less-than on JavaScript numbers (`NaN` compares false). -/
def jnumLt (a b : JNum) : Bool :=
  match a, b with
  | .nan, _ => false
  | _, .nan => false
  | .negInf, .negInf => false
  | .negInf, _ => true
  | _, .negInf => false
  | .posInf, _ => false
  | .finite _, .posInf => true
  | .finite x, .finite y => decide (decValue x < decValue y)

/-- Lexicographic comparison of character lists (model of the JavaScript
string relational comparison; code-point order). -/
def charsLt : List Char → List Char → Bool
  | [], [] => false
  | [], _ :: _ => true
  | _ :: _, [] => false
  | a :: as, b :: bs => if a < b then true else if b < a then false else charsLt as bs

/-- Strip whitespace from both ends. -/
def trimWs (cs : List Char) : List Char :=
  ((cs.dropWhile isWsChar).reverse.dropWhile isWsChar).reverse

/-- Model of JavaScript `ToNumber` on a string: trimmed empty input is 0,
infinity literals are accepted, otherwise a full decimal literal (leading
`+` allowed); anything else is `NaN`.  (Hex literals and bare `.5` forms
are not produced by the dashboard's table data and map to `NaN` here.) -/
def strToNumber (s : List Char) : JNum :=
  let t := trimWs s
  if t = [] then .finite ⟨0, 0⟩
  else if t = infinityLit ∨ t = '+' :: infinityLit then .posInf
  else if t = '-' :: infinityLit then .negInf
  else
    let t' := match t with
      | c :: r => if c = '+' then r else t
      | [] => t
    match parseDecCore t' with
    | some (d, []) => .finite d
    | _ => .nan

/-- Model of JavaScript `ToNumber` on a primitive value. -/
def toNumber : JsVal → JNum
  | .jsUndefined => .nan
  | .jsNull => .finite ⟨0, 0⟩
  | .bool true => .finite ⟨1, 0⟩
  | .bool false => .finite ⟨0, 0⟩
  | .num n => n
  | .str s => strToNumber s
  | .objRef _ => .nan

/-- Model of the JavaScript abstract relational comparison `a < b`:
string/string compares lexicographically, every other pair numerically
after `ToNumber`. -/
def jsLt (a b : JsVal) : Bool :=
  match a, b with
  | .str s1, .str s2 => charsLt s1 s2
  | _, _ => jnumLt (toNumber a) (toNumber b)

/-- JavaScript `a > b` (the reversed relational comparison). -/
def jsGt (a b : JsVal) : Bool :=
  jsLt b a

/-- A table row: column name to value.  `a[key]` on a missing column is
`undefined`, matching JavaScript property access. -/
def getField (row : List (List Char × JsVal)) (key : List Char) : JsVal :=
  match row.find? (fun f => f.1 == key) with
  | some f => f.2
  | none => .jsUndefined

/-- Embedding of the comparator closure inside `copyAndSort`
(ts/webui/src/static/function.ts): rows whose key value is `undefined`,
non-finite or an object sort after everything (`return 1`; `-1` when only
`b` is disqualified); otherwise the result follows
`(isSortedDescending ? a[key] < b[key] : a[key] > b[key]) ? 1 : -1`. -/
def sortCompare (key : List Char) (isSortedDescending : Bool)
    (a b : List (List Char × JsVal)) : Int :=
  if badSortKey (getField a key) then 1
  else if badSortKey (getField b key) then -1
  else if (if isSortedDescending then jsLt (getField a key) (getField b key)
           else jsGt (getField a key) (getField b key)) then 1 else -1

/-- Insert an element into a list using a three-way comparator: it goes
before the first element `y` with `cmp x y ≤ 0`. -/
def insertCmp {α : Type} (cmp : α → α → Int) (x : α) : List α → List α
  | [] => [x]
  | y :: ys => if cmp x y ≤ 0 then x :: y :: ys else y :: insertCmp cmp x ys

/-- Stable comparison sort (model of `Array.prototype.sort` with a
comparator; the ECMAScript sort is a stable comparison sort). -/
def sortCmp {α : Type} (cmp : α → α → Int) : List α → List α
  | [] => []
  | x :: xs => insertCmp cmp x (sortCmp cmp xs)

/-- Model of `Array.prototype.slice(0)`: a newly built list with the same
elements in the same order; the source then sorts this copy in place,
leaving the input array untouched. -/
def jsSlice {α : Type} (items : List α) : List α :=
  items.foldr (fun x acc => x :: acc) []

/-- Embedding of `copyAndSort` (ts/webui/src/static/function.ts):
`items.slice(0).sort(comparator)`. -/
def copyAndSort (items : List (List (List Char × JsVal))) (columnKey : List Char)
    (isSortedDescending : Bool) : List (List (List Char × JsVal)) :=
  sortCmp (sortCompare columnKey isSortedDescending) (jsSlice items)

/-! ### Hyperband bucket table (`R = 81`, `eta = 3`) -/

/-- The first-rung `(n, r)` pairs of the documented Hyperband table for
`R = 81`, `eta = 3`, listed for buckets `s = 4, 3, 2, 1, 0` (row `i = 0` of
the table in the Hyperband documentation shipped in this repository). -/
def hyperbandDocFirstRung : List (Int × ℚ) :=
  [(81, 1), (27, 3), (9, 9), (6, 27), (5, 81)]

/-- Floor logarithm, written with explicit fuel (any bound on `n`) so that
it evaluates inside the kernel. -/
def logFloorAux : Nat → Nat → Nat → Nat
  | 0, _, _ => 0
  | fuel + 1, b, n => if 1 < b ∧ b ≤ n then logFloorAux fuel b (n / b) + 1 else 0

/-- `s_max = floor(log_eta R)`. -/
def sMax (eta R : Nat) : Nat :=
  logFloorAux R eta R

/-- Modelled from the spec: the claimed closed form
`n_0(s) = ceil((s_max+1)/(s+1) * eta^s)` read as exact rational arithmetic
(the Hyperband advisor implementation itself is not part of this repository
slice; the in-repository authority is the documented table). -/
def n0Ceil (smax s eta : Nat) : Int :=
  ⌈((smax + 1 : ℚ) / (s + 1)) * (eta : ℚ) ^ s⌉

/-- The closed form `r_0(s) = R * eta^(-s)`. -/
def r0Formula (R eta s : Nat) : ℚ :=
  (R : ℚ) / (eta : ℚ) ^ s

/-- First-rung pairs predicted by the spec's closed form, for
`s = s_max, …, 0`. -/
def specFirstRung (R eta : Nat) : List (Int × ℚ) :=
  ((List.range (sMax eta R + 1)).reverse).map
    (fun s => (n0Ceil (sMax eta R) s eta, r0Formula R eta s))

/-- First-rung counts under the corrected closed form
`n_0(s) = floor((s_max+1)/(s+1)) * eta^s` (integer division), which is what
the documented table realizes. -/
def n0Floor (smax s eta : Nat) : Nat :=
  ((smax + 1) / (s + 1)) * eta ^ s

/-- First-rung pairs under the corrected closed form. -/
def correctedFirstRung (R eta : Nat) : List (Int × ℚ) :=
  ((List.range (sMax eta R + 1)).reverse).map
    (fun s => ((n0Floor (sMax eta R) s eta : Int), r0Formula R eta s))

/-! ## Lemmas -/

/-! ### Characters and digits -/

theorem char_ne_of_digit {c d : Char} (hc : c.isDigit = true) (hd : d.isDigit = false) :
    c ≠ d := by
  intro h
  rw [h, hd] at hc
  exact Bool.false_ne_true hc

theorem digitChar_isDigit {d : Nat} (h : d < 10) : (digitChar d).isDigit = true := by
  interval_cases d <;> rfl

theorem charDigitVal_digitChar {d : Nat} (h : d < 10) : charDigitVal (digitChar d) = d := by
  interval_cases d <;> rfl

theorem digitChar_ne_zero {d : Nat} (h : d < 10) (h0 : d ≠ 0) : digitChar d ≠ '0' := by
  interval_cases d <;> simp_all <;> decide

theorem charsToNat_append (l : List Char) (c : Char) :
    charsToNat (l ++ [c]) = 10 * charsToNat l + charDigitVal c := by
  simp [charsToNat, List.foldl_append]

theorem natToCharsAux_zero : ∀ fuel, natToCharsAux fuel 0 = [] := by
  intro fuel
  cases fuel <;> simp [natToCharsAux]

theorem natToCharsAux_eval :
    ∀ fuel n, 0 < n → n ≤ fuel → charsToNat (natToCharsAux fuel n) = n := by
  intro fuel
  induction fuel with
  | zero => intro n h1 h2; omega
  | succ f ih =>
    intro n h1 h2
    rw [natToCharsAux]
    simp only [Nat.pos_iff_ne_zero.mp h1, if_false]
    rw [charsToNat_append, charDigitVal_digitChar (Nat.mod_lt n (by omega))]
    rcases Nat.lt_or_ge n 10 with h10 | h10
    · have : n / 10 = 0 := Nat.div_eq_of_lt h10
      rw [this, natToCharsAux_zero]
      simp [charsToNat]
      omega
    · have hd : 0 < n / 10 := Nat.div_pos h10 (by omega)
      have hle : n / 10 ≤ f := by
        have := Nat.div_lt_self h1 (by omega : 1 < 10)
        omega
      rw [ih (n / 10) hd hle]
      omega

theorem natToCharsAux_digits :
    ∀ fuel n c, c ∈ natToCharsAux fuel n → c.isDigit = true := by
  intro fuel
  induction fuel with
  | zero => intro n c h; simp [natToCharsAux] at h
  | succ f ih =>
    intro n c h
    rw [natToCharsAux] at h
    by_cases hn : n = 0
    · simp [hn] at h
    · simp only [hn, if_false, List.mem_append, List.mem_singleton] at h
      rcases h with h | h
      · exact ih _ _ h
      · rw [h]; exact digitChar_isDigit (Nat.mod_lt n (by omega))

theorem natToCharsAux_ne_nil :
    ∀ fuel n, 0 < n → n ≤ fuel → natToCharsAux fuel n ≠ [] := by
  intro fuel n h1 h2
  cases fuel with
  | zero => omega
  | succ f =>
    rw [natToCharsAux]
    simp [Nat.pos_iff_ne_zero.mp h1]

theorem natToCharsAux_head_ne_zero :
    ∀ fuel n, 0 < n → n ≤ fuel →
      ∀ c, (natToCharsAux fuel n).head? = some c → c ≠ '0' := by
  intro fuel
  induction fuel with
  | zero => intro n h1 h2; omega
  | succ f ih =>
    intro n h1 h2 c hc
    rw [natToCharsAux] at hc
    simp only [Nat.pos_iff_ne_zero.mp h1, if_false] at hc
    rcases Nat.lt_or_ge n 10 with h10 | h10
    · have hz : n / 10 = 0 := Nat.div_eq_of_lt h10
      rw [hz, natToCharsAux_zero] at hc
      simp at hc
      have hm : n % 10 = n := Nat.mod_eq_of_lt h10
      rw [← hc, hm]
      exact digitChar_ne_zero h10 (by omega)
    · have hd : 0 < n / 10 := Nat.div_pos h10 (by omega)
      have hle : n / 10 ≤ f := by
        have := Nat.div_lt_self h1 (by omega : 1 < 10)
        omega
      have hne := natToCharsAux_ne_nil f (n / 10) hd hle
      rw [List.head?_append_of_ne_nil _ hne] at hc
      exact ih (n / 10) hd hle c hc

theorem natToChars_digits {n : Nat} {c : Char} (h : c ∈ natToChars n) : c.isDigit = true := by
  rw [natToChars] at h
  by_cases hn : n = 0
  · simp [hn] at h
    rw [h]; rfl
  · simp only [hn, if_false] at h
    exact natToCharsAux_digits n n c h

theorem natToChars_ne_nil (n : Nat) : natToChars n ≠ [] := by
  rw [natToChars]
  by_cases hn : n = 0
  · simp [hn]
  · simp only [hn, if_false]
    exact natToCharsAux_ne_nil n n (by omega) (le_refl n)

theorem charsToNat_natToChars (n : Nat) : charsToNat (natToChars n) = n := by
  rw [natToChars]
  by_cases hn : n = 0
  · simp [hn]; rfl
  · simp only [hn, if_false]
    exact natToCharsAux_eval n n (by omega) (le_refl n)

theorem natToChars_no_leading_zero {n : Nat} :
    ¬(1 < (natToChars n).length ∧ (natToChars n).head? = some '0') := by
  rintro ⟨hlen, hhead⟩
  rw [natToChars] at hlen hhead
  by_cases hn : n = 0
  · simp [hn] at hlen
  · simp only [hn, if_false] at hlen hhead
    exact natToCharsAux_head_ne_zero n n (by omega) (le_refl n) '0' hhead rfl

/-! ### takeWhile / dropWhile / whitespace -/

theorem takeWhile_append_all {p : Char → Bool} :
    ∀ {l r : List Char}, (∀ a ∈ l, p a = true) →
      (l ++ r).takeWhile p = l ++ r.takeWhile p := by
  intro l
  induction l with
  | nil => intro r _; simp
  | cons c t ih =>
    intro r h
    have hc : p c = true := h c (List.mem_cons_self c t)
    simp only [List.cons_append, List.takeWhile_cons, hc, if_true]
    rw [ih (fun a ha => h a (List.mem_cons_of_mem c ha))]

theorem dropWhile_append_all {p : Char → Bool} :
    ∀ {l r : List Char}, (∀ a ∈ l, p a = true) →
      (l ++ r).dropWhile p = r.dropWhile p := by
  intro l
  induction l with
  | nil => intro r _; simp
  | cons c t ih =>
    intro r h
    have hc : p c = true := h c (List.mem_cons_self c t)
    simp only [List.cons_append, List.dropWhile_cons, hc, if_true]
    exact ih (fun a ha => h a (List.mem_cons_of_mem c ha))

theorem takeWhile_cons_neg {p : Char → Bool} {c : Char} {t : List Char} (h : p c = false) :
    (c :: t).takeWhile p = [] := by
  simp [List.takeWhile_cons, h]

theorem dropWhile_cons_neg {p : Char → Bool} {c : Char} {t : List Char} (h : p c = false) :
    (c :: t).dropWhile p = c :: t := by
  simp [List.dropWhile_cons, h]

theorem skipWs_cons_neg {c : Char} {t : List Char} (h : isWsChar c = false) :
    skipWs (c :: t) = c :: t := by
  rw [skipWs]
  exact dropWhile_cons_neg h

theorem isWsChar_of_digit {c : Char} (h : c.isDigit = true) : isWsChar c = false := by
  rw [isWsChar]
  have h1 := char_ne_of_digit h (show (' ').isDigit = false from rfl)
  have h2 := char_ne_of_digit h (show ('\t').isDigit = false from rfl)
  have h3 := char_ne_of_digit h (show ('\n').isDigit = false from rfl)
  have h4 := char_ne_of_digit h (show ('\r').isDigit = false from rfl)
  simp [h1, h2, h3, h4]

/-! ### Substring search lemmas -/

theorem isPre_head_eq {c : Char} {tl hay : List Char} (h : isPre (c :: tl) hay = true) :
    ∃ t, hay = c :: t := by
  cases hay with
  | nil => simp [isPre] at h
  | cons b bs =>
    rw [isPre] at h
    have hb := (Bool.and_eq_true _ _).mp h
    exact ⟨bs, by rw [eq_of_beq hb.1]⟩

theorem hasSub_head_mem {hay : List Char} {c : Char} {tl : List Char}
    (h : hasSub hay (c :: tl) = true) : c ∈ hay := by
  induction hay with
  | nil => simp [hasSub] at h
  | cons b bs ih =>
    rw [hasSub] at h
    rcases (Bool.or_eq_true _ _).mp h with h1 | h1
    · obtain ⟨t, ht⟩ := isPre_head_eq h1
      rw [List.cons.injEq] at ht
      exact ht.1 ▸ List.mem_cons_self b bs
    · exact List.mem_cons_of_mem b (ih h1)

theorem hasSub_eq_false_of_not_mem {hay : List Char} {c : Char} {tl : List Char}
    (h : c ∉ hay) : hasSub hay (c :: tl) = false := by
  cases hh : hasSub hay (c :: tl) with
  | false => rfl
  | true => exact absurd (hasSub_head_mem hh) h

/-! ### String literal round trip -/

theorem escBody_cons (c : Char) (s : List Char) :
    escBody (c :: s) = escapeChar c ++ escBody s := by
  rfl

theorem mem_escBody {c : Char} :
    ∀ {s : List Char}, c ∈ escBody s → c ∈ s ∨ c = '\\' := by
  intro s
  induction s with
  | nil => intro h; simp [escBody] at h
  | cons b bs ih =>
    intro h
    rw [escBody_cons, List.mem_append] at h
    rcases h with h | h
    · rw [escapeChar] at h
      by_cases hb : b = '"' ∨ b = '\\'
      · simp only [hb, if_true, List.mem_cons, List.mem_singleton] at h
        rcases h with h | h | h
        · exact Or.inr h
        · exact Or.inl (h ▸ List.mem_cons_self b bs)
        · simp at h
      · simp only [hb, if_false, List.mem_singleton] at h
        exact Or.inl (h ▸ List.mem_cons_self b bs)
    · rcases ih h with h | h
      · exact Or.inl (List.mem_cons_of_mem b h)
      · exact Or.inr h

theorem parseStringBody_quote (rest : List Char) :
    parseStringBody ('"' :: rest) = some ([], rest) := by
  unfold parseStringBody
  simp

theorem parseStringBody_backslash (c : Char) (rest : List Char) :
    parseStringBody ('\\' :: c :: rest) =
      match unescapeChar c, parseStringBody rest with
      | some u, some (s, r) => some (u :: s, r)
      | _, _ => none := by
  conv_lhs => rw [parseStringBody.eq_def]
  simp

theorem parseStringBody_other {c : Char} (rest : List Char) (h1 : c ≠ '"') (h2 : c ≠ '\\') :
    parseStringBody (c :: rest) =
      match parseStringBody rest with
      | some (s, r) => some (c :: s, r)
      | none => none := by
  conv_lhs => rw [parseStringBody.eq_def]
  dsimp only
  rw [if_neg h1, if_neg h2]

theorem parseStringBody_escBody :
    ∀ (s rest : List Char), parseStringBody (escBody s ++ '"' :: rest) = some (s, rest) := by
  intro s
  induction s with
  | nil =>
    intro rest
    show parseStringBody ('"' :: rest) = some ([], rest)
    exact parseStringBody_quote rest
  | cons c t ih =>
    intro rest
    rw [escBody_cons, escapeChar]
    by_cases hc : c = '"' ∨ c = '\\'
    · simp only [hc, if_true, List.append_assoc, List.cons_append, List.nil_append]
      rw [parseStringBody_backslash]
      have hu : unescapeChar c = some c := by
        rcases hc with h | h <;> rw [h] <;> rfl
      rw [hu, ih rest]
    · push_neg at hc
      rw [if_neg (by simp [hc.1, hc.2]), List.singleton_append, List.cons_append]
      rw [parseStringBody_other _ hc.1 hc.2, ih rest]

/-! ### Number literal round trip -/

theorem dropWhile_head_not {p : Char → Bool} {l : List Char}
    (h : ∀ c, l.head? = some c → p c = false) : l.dropWhile p = l := by
  cases l with
  | nil => rfl
  | cons c t => exact dropWhile_cons_neg (h c rfl)

theorem takeWhile_head_not {p : Char → Bool} {l : List Char}
    (h : ∀ c, l.head? = some c → p c = false) : l.takeWhile p = [] := by
  cases l with
  | nil => rfl
  | cons c t => exact takeWhile_cons_neg (h c rfl)

theorem parseFracPart_cons_nodot {c : Char} {t : List Char} (h : c ≠ '.') :
    parseFracPart (c :: t) = some ([], c :: t) := by
  rw [parseFracPart.eq_def]
  dsimp only
  rw [if_neg h]

theorem natToChars_exists_head (n : Nat) :
    ∃ c t, natToChars n = c :: t ∧ c.isDigit = true := by
  rcases hl : natToChars n with _ | ⟨c, t⟩
  · exact absurd hl (natToChars_ne_nil n)
  · exact ⟨c, t, rfl, natToChars_digits (hl ▸ List.mem_cons_self c t)⟩

theorem charsToNat_append_nil (l : List Char) : charsToNat (l ++ []) = charsToNat l := by
  rw [List.append_nil]

theorem parseExpPart_encode (i : Int) (rest : List Char)
    (hrest : ∀ c, rest.head? = some c → c.isDigit = false) :
    parseExpPart ('e' :: (intToChars i ++ rest)) = some (i, rest) := by
  obtain ⟨ec, et, he_eq, he_digit⟩ := natToChars_exists_head i.natAbs
  have hexp_take : (natToChars i.natAbs ++ rest).takeWhile Char.isDigit
      = natToChars i.natAbs := by
    rw [takeWhile_append_all (fun a ha => natToChars_digits ha), takeWhile_head_not hrest,
      List.append_nil]
  have hexp_drop : (natToChars i.natAbs ++ rest).dropWhile Char.isDigit = rest := by
    rw [dropWhile_append_all (fun a ha => natToChars_digits ha)]
    exact dropWhile_head_not hrest
  rw [parseExpPart.eq_def]
  dsimp only
  rw [if_pos (Or.inl rfl)]
  rw [intToChars]
  by_cases he : i < 0
  · rw [if_pos he]
    simp only [List.cons_append, List.singleton_append, List.nil_append]
    simp only [show (('-' : Char) = '+') = False by simp, show (('-' : Char) = '-') = True by simp,
      if_false, if_true]
    rw [hexp_take, hexp_drop]
    rw [if_neg (by simp [natToChars_ne_nil])]
    rw [charsToNat_natToChars]
    rw [if_neg Bool.false_ne_true]
    have hofnat : -Int.ofNat i.natAbs = i := by
      rw [Int.ofNat_eq_natCast]
      omega
    rw [hofnat]
  · rw [if_neg he]
    simp only [List.nil_append]
    rw [he_eq]
    simp only [List.cons_append]
    rw [if_neg (char_ne_of_digit he_digit (show ('+').isDigit = false from rfl)),
      if_neg (char_ne_of_digit he_digit (show ('-').isDigit = false from rfl))]
    rw [← List.cons_append, ← he_eq, hexp_take, hexp_drop]
    rw [if_neg (by simp [natToChars_ne_nil])]
    rw [charsToNat_natToChars]
    rw [if_pos rfl]
    have hofnat : Int.ofNat i.natAbs = i := by
      rw [Int.ofNat_eq_natCast]
      omega
    rw [hofnat]

theorem parseDecCore_encodeDec (d : Dec) (rest : List Char)
    (hrest : ∀ c, rest.head? = some c → c.isDigit = false) :
    parseDecCore (encodeDec d ++ rest) = some (d, rest) := by
  have heD : ('e').isDigit = false := rfl
  have input_eq : encodeDec d ++ rest =
      intToChars d.m ++ ('e' :: (intToChars d.e ++ rest)) := by
    rw [encodeDec]
    simp
  obtain ⟨mc, mt, hm_eq, hm_digit⟩ := natToChars_exists_head d.m.natAbs
  have hsplit : splitSign (encodeDec d ++ rest) =
      (decide (d.m < 0), natToChars d.m.natAbs ++ ('e' :: (intToChars d.e ++ rest))) := by
    rw [input_eq, intToChars]
    by_cases hm : d.m < 0
    · rw [if_pos hm, decide_eq_true hm]
      rfl
    · rw [if_neg hm, decide_eq_false hm, List.nil_append, hm_eq]
      simp only [List.cons_append]
      rw [splitSign.eq_def]
      dsimp only
      rw [if_neg (char_ne_of_digit hm_digit (show ('-').isDigit = false from rfl))]
  have htake : (natToChars d.m.natAbs ++ ('e' :: (intToChars d.e ++ rest))).takeWhile Char.isDigit
      = natToChars d.m.natAbs := by
    rw [takeWhile_append_all (fun a ha => natToChars_digits ha)]
    rw [takeWhile_cons_neg heD, List.append_nil]
  have hdrop : (natToChars d.m.natAbs ++ ('e' :: (intToChars d.e ++ rest))).dropWhile Char.isDigit
      = 'e' :: (intToChars d.e ++ rest) := by
    rw [dropWhile_append_all (fun a ha => natToChars_digits ha)]
    exact dropWhile_cons_neg heD
  rw [parseDecCore.eq_def]
  rw [hsplit]
  dsimp only
  rw [htake, hdrop]
  rw [if_neg (by simp [natToChars_ne_nil])]
  rw [if_neg natToChars_no_leading_zero]
  rw [parseFracPart_cons_nodot (by decide)]
  dsimp only
  rw [parseExpPart_encode d.e rest hrest]
  dsimp only
  rw [charsToNat_append_nil, charsToNat_natToChars]
  rw [Option.some.injEq, Prod.mk.injEq]
  refine ⟨?_, rfl⟩
  rw [Dec.mk.injEq]
  refine ⟨?_, by simp⟩
  by_cases hm : d.m < 0
  · rw [decide_eq_true hm, if_pos rfl, Int.ofNat_eq_natCast]
    omega
  · rw [decide_eq_false hm, if_neg Bool.false_ne_true, Int.ofNat_eq_natCast]
    omega

/-! ### Value-level parsing lemmas -/

theorem isPre_cons_ne {h c : Char} {l r : List Char} (hne : h ≠ c) :
    isPre (h :: l) (c :: r) = false := by
  rw [isPre]
  simp [hne]

theorem parseNumberTok_strict_encodeDec (d : Dec) (rest : List Char)
    (hrest : ∀ c, rest.head? = some c → c.isDigit = false) :
    parseNumberTok true (encodeDec d ++ rest) = some (.finite d, rest) := by
  unfold parseNumberTok
  rw [if_pos rfl, parseDecCore_encodeDec d rest hrest]

theorem encodeDec_head (d : Dec) (rest : List Char) :
    ∃ c0 t0, encodeDec d ++ rest = c0 :: t0 ∧ (c0 = '-' ∨ c0.isDigit = true) := by
  obtain ⟨mc, mt, hm_eq, hm_digit⟩ := natToChars_exists_head d.m.natAbs
  rw [encodeDec, intToChars]
  by_cases hm : d.m < 0
  · rw [if_pos hm]
    exact ⟨'-', natToChars d.m.natAbs ++ 'e' :: (intToChars d.e ++ rest), by simp, Or.inl rfl⟩
  · rw [if_neg hm, List.nil_append, hm_eq]
    exact ⟨mc, mt ++ 'e' :: (intToChars d.e ++ rest), by simp, Or.inr hm_digit⟩

theorem numHead_facts {c0 : Char} (h : c0 = '-' ∨ c0.isDigit = true) :
    isWsChar c0 = false ∧ c0 ≠ '{' ∧ c0 ≠ '[' ∧ c0 ≠ '"' ∧ c0 ≠ 't' ∧ c0 ≠ 'f' ∧ c0 ≠ 'n' := by
  rcases h with h | h
  · rw [h]
    refine ⟨rfl, ?_, ?_, ?_, ?_, ?_, ?_⟩ <;> decide
  · exact ⟨isWsChar_of_digit h,
      char_ne_of_digit h (show ('{').isDigit = false from rfl),
      char_ne_of_digit h (show ('[').isDigit = false from rfl),
      char_ne_of_digit h (show ('"').isDigit = false from rfl),
      char_ne_of_digit h (show ('t').isDigit = false from rfl),
      char_ne_of_digit h (show ('f').isDigit = false from rfl),
      char_ne_of_digit h (show ('n').isDigit = false from rfl)⟩

theorem parseValue_encodeDec (f : Nat) (d : Dec) (rest : List Char)
    (hrest : ∀ c, rest.head? = some c → c.isDigit = false) :
    parseValue (f + 1) true (encodeDec d ++ rest) = some (.num (.finite d), rest) := by
  obtain ⟨c0, t0, hshape, hc0⟩ := encodeDec_head d rest
  obtain ⟨hws, h1, h2, h3, h4, h5, h6⟩ := numHead_facts hc0
  rw [parseValue.eq_def]
  dsimp only
  rw [hshape, skipWs_cons_neg hws]
  dsimp only
  rw [if_neg h1, if_neg h2, if_neg h3]
  simp only [trueLit, falseLit, nullLit]
  rw [isPre_cons_ne (Ne.symm h4), isPre_cons_ne (Ne.symm h5), isPre_cons_ne (Ne.symm h6)]
  simp only [Bool.false_eq_true, if_false]
  rw [← hshape, parseNumberTok_strict_encodeDec d rest hrest]

theorem parseValue_encodeString (f : Nat) (strict : Bool) (s rest : List Char) :
    parseValue (f + 1) strict (encodeString s ++ rest) = some (.str s, rest) := by
  have hshape : encodeString s ++ rest = '"' :: (escBody s ++ '"' :: rest) := by
    rw [encodeString]
    simp
  rw [parseValue.eq_def]
  dsimp only
  rw [hshape, skipWs_cons_neg (show isWsChar '"' = false from rfl)]
  dsimp only
  rw [if_neg (show ('"' : Char) ≠ '{' from by decide),
    if_neg (show ('"' : Char) ≠ '[' from by decide), if_pos rfl]
  rw [parseStringBody_escBody s rest]

theorem stringifyVal_defaultObjShape (j5 : Bool) (k : List Char) (d : Dec)
    (rest : List Char) :
    stringifyVal j5 (.obj [(k, .num (.finite d))]) ++ rest =
      '{' :: (encodeString k ++ ':' :: (encodeDec d ++ '}' :: rest)) := by
  rw [stringifyVal, stringifyObj]
  simp [stringifyVal]

theorem parseFields_singleNumField (f : Nat) (k : List Char) (d : Dec) (rest : List Char) :
    parseFields (f + 2) true (encodeString k ++ ':' :: (encodeDec d ++ '}' :: rest)) =
      some ([(k, .num (.finite d))], rest) := by
  have hshape : encodeString k ++ ':' :: (encodeDec d ++ '}' :: rest) =
      '"' :: (escBody k ++ '"' :: (':' :: (encodeDec d ++ '}' :: rest))) := by
    rw [encodeString]
    simp
  rw [hshape, parseFields.eq_def]
  dsimp only
  rw [if_pos rfl, parseStringBody_escBody]
  dsimp only
  rw [skipWs_cons_neg (show isWsChar ':' = false from rfl)]
  dsimp only
  rw [if_pos rfl]
  rw [parseValue_encodeDec f d ('}' :: rest)
    (fun c hc => by
      simp only [List.head?_cons, Option.some.injEq] at hc
      rw [← hc]
      rfl)]
  dsimp only
  rw [skipWs_cons_neg (show isWsChar '}' = false from rfl)]
  dsimp only
  rw [if_neg (show ('}' : Char) ≠ ',' from by decide), if_pos rfl]

theorem parseValue_defaultObj (f : Nat) (k : List Char) (d : Dec) (rest : List Char) :
    parseValue (f + 3) true (stringifyVal true (.obj [(k, .num (.finite d))]) ++ rest) =
      some (.obj [(k, .num (.finite d))], rest) := by
  rw [stringifyVal_defaultObjShape]
  rw [parseValue.eq_def]
  dsimp only
  rw [skipWs_cons_neg (show isWsChar '{' = false from rfl)]
  dsimp only
  rw [if_pos rfl]
  have hshape : encodeString k ++ ':' :: (encodeDec d ++ '}' :: rest) =
      '"' :: (escBody k ++ '"' :: (':' :: (encodeDec d ++ '}' :: rest))) := by
    rw [encodeString]
    simp
  rw [hshape, skipWs_cons_neg (show isWsChar '"' = false from rfl)]
  dsimp only
  rw [if_neg (show ('"' : Char) ≠ '}' from by decide)]
  rw [← hshape, parseFields_singleNumField f k d rest]

/-! ### Document-level parsing lemmas -/

theorem parseDoc_total (strict : Bool) (cs : List Char) (v : JsonValue)
    (h : parseValue (cs.length + 1) strict cs = some (v, [])) :
    parseDoc strict cs = some v := by
  rw [parseDoc, h]
  rfl

theorem jsonParse_encodeDec (d : Dec) :
    jsonParse (encodeDec d) = some (.num (.finite d)) := by
  rw [jsonParse]
  refine parseDoc_total true _ _ ?_
  have h := parseValue_encodeDec (encodeDec d).length d [] (fun c hc => by simp at hc)
  rw [List.append_nil] at h
  exact h

theorem jsonParse_encodeString (strict : Bool) (s : List Char) :
    parseDoc strict (encodeString s) = some (.str s) := by
  refine parseDoc_total strict _ _ ?_
  have h := parseValue_encodeString (encodeString s).length strict s []
  rw [List.append_nil] at h
  exact h

theorem length_defaultObjEnc (k : List Char) (d : Dec) :
    2 ≤ (stringifyVal true (.obj [(k, .num (.finite d))])).length := by
  have h := stringifyVal_defaultObjShape true k d []
  rw [List.append_nil] at h
  rw [h]
  simp
  omega

theorem jsonParse_defaultObj (k : List Char) (d : Dec) :
    jsonParse (stringifyVal true (.obj [(k, .num (.finite d))])) =
      some (.obj [(k, .num (.finite d))]) := by
  rw [jsonParse]
  refine parseDoc_total true _ _ ?_
  have hlen := length_defaultObjEnc k d
  have hfuel : (stringifyVal true (.obj [(k, .num (.finite d))])).length + 1 =
      ((stringifyVal true (.obj [(k, .num (.finite d))])).length - 2) + 3 := by omega
  rw [hfuel]
  have h := parseValue_defaultObj
    ((stringifyVal true (.obj [(k, .num (.finite d))])).length - 2) k d []
  rw [List.append_nil] at h
  exact h

/-! ### Payload character classification -/

theorem mem_encodeDec {c : Char} {d : Dec}
    (h : c ∈ encodeDec d) : c.isDigit = true ∨ c = '-' ∨ c = 'e' := by
  rw [encodeDec, intToChars, intToChars] at h
  simp only [List.mem_append, List.mem_cons, List.mem_singleton] at h
  rcases h with (h | h) | h | (h | h)
  · by_cases hm : d.m < 0
    · rw [if_pos hm] at h
      simp at h
      exact Or.inr (Or.inl h)
    · rw [if_neg hm] at h
      simp at h
  · exact Or.inl (natToChars_digits h)
  · exact Or.inr (Or.inr h)
  · by_cases he : d.e < 0
    · rw [if_pos he] at h
      simp at h
      exact Or.inr (Or.inl h)
    · rw [if_neg he] at h
      simp at h
  · exact Or.inl (natToChars_digits h)

theorem mem_doubleEncode {c : Char} {v : JsonValue}
    (h : c ∈ doubleEncode v) : c ∈ stringifyVal true v ∨ c = '\\' ∨ c = '"' := by
  rw [doubleEncode, encodeString] at h
  rcases List.mem_cons.mp h with h | h
  · exact Or.inr (Or.inr h)
  · rcases List.mem_append.mp h with h | h
    · rcases mem_escBody h with h | h
      · exact Or.inl h
      · exact Or.inr (Or.inl h)
    · exact Or.inr (Or.inr (List.mem_singleton.mp h))

theorem not_mem_num_payload {c : Char} {d : Dec}
    (hdig : c.isDigit = false) (hne : c ≠ '-' ∧ c ≠ 'e' ∧ c ≠ '\\' ∧ c ≠ '"') :
    c ∉ doubleEncode (.num (.finite d)) := by
  intro hmem
  rcases mem_doubleEncode hmem with h | h | h
  · rw [show stringifyVal true (.num (.finite d)) = encodeDec d from rfl] at h
    rcases mem_encodeDec h with h | h | h
    · rw [h] at hdig
      simp at hdig
    · exact hne.1 h
    · exact hne.2.1 h
  · exact hne.2.2.1 h
  · exact hne.2.2.2 h

theorem mem_defaultObjEnc {c : Char} {d : Dec}
    (h : c ∈ stringifyVal true (.obj [(defaultKey, .num (.finite d))])) :
    c.isDigit = true ∨ c ∈ ['-', 'e', '{', '}', ':', '"', 'd', 'f', 'a', 'u', 'l', 't'] := by
  have hshape := stringifyVal_defaultObjShape true defaultKey d []
  rw [List.append_nil] at hshape
  rw [hshape] at h
  rcases List.mem_cons.mp h with h | h
  · rw [h]; simp
  rcases List.mem_append.mp h with h | h
  · rw [encodeString, show escBody defaultKey = defaultKey from by decide] at h
    rcases List.mem_cons.mp h with h | h
    · rw [h]; simp
    rcases List.mem_append.mp h with h | h
    · right
      simp only [defaultKey, List.mem_cons, List.not_mem_nil, or_false] at h
      simp only [List.mem_cons, List.not_mem_nil, or_false]
      tauto
    · rw [List.mem_singleton.mp h]; simp
  · rcases List.mem_cons.mp h with h | h
    · rw [h]; simp
    rcases List.mem_append.mp h with h | h
    · rcases mem_encodeDec h with h | h | h
      · exact Or.inl h
      · rw [h]; simp
      · rw [h]; simp
    · rw [List.mem_singleton.mp h]; simp

theorem not_mem_defaultObj_payload {c : Char} {d : Dec}
    (hdig : c.isDigit = false)
    (hne : c ∉ ['-', 'e', '{', '}', ':', '"', 'd', 'f', 'a', 'u', 'l', 't', '\\']) :
    c ∉ doubleEncode (.obj [(defaultKey, .num (.finite d))]) := by
  intro hmem
  simp only [List.mem_cons, List.not_mem_nil, or_false] at hne
  rcases mem_doubleEncode hmem with h | h | h
  · rcases mem_defaultObjEnc h with h | h
    · rw [h] at hdig
      simp at hdig
    · simp only [List.mem_cons, List.not_mem_nil, or_false] at h
      tauto
  · tauto
  · tauto

/-! ### Metric round-trip lemmas -/

theorem parseMetrics_finiteNum (d : Dec) :
    parseMetrics (doubleEncode (.num (.finite d))) = some (.num (.finite d)) := by
  have hN : hasSub (doubleEncode (.num (.finite d))) nanLit = false :=
    hasSub_eq_false_of_not_mem
      (not_mem_num_payload (by decide) (by refine ⟨?_, ?_, ?_, ?_⟩ <;> decide))
  have hI : hasSub (doubleEncode (.num (.finite d))) infinityLit = false :=
    hasSub_eq_false_of_not_mem
      (not_mem_num_payload (by decide) (by refine ⟨?_, ?_, ?_, ?_⟩ <;> decide))
  rw [parseMetrics, hN, hI]
  simp only [Bool.or_self, Bool.false_eq_true, if_false]
  rw [show doubleEncode (.num (.finite d)) = encodeString (encodeDec d) from rfl]
  rw [show jsonParse (encodeString (encodeDec d)) = parseDoc true (encodeString (encodeDec d))
    from rfl]
  rw [jsonParse_encodeString true (encodeDec d)]
  dsimp only
  rw [show jsToChars (.str (encodeDec d)) = encodeDec d from rfl]
  rw [jsonParse_encodeDec d]

theorem parseMetrics_defaultObj (d : Dec) :
    parseMetrics (doubleEncode (.obj [(defaultKey, .num (.finite d))])) =
      some (.obj [(defaultKey, .num (.finite d))]) := by
  have hN : hasSub (doubleEncode (.obj [(defaultKey, .num (.finite d))])) nanLit = false :=
    hasSub_eq_false_of_not_mem (not_mem_defaultObj_payload (by decide) (by decide))
  have hI : hasSub (doubleEncode (.obj [(defaultKey, .num (.finite d))])) infinityLit = false :=
    hasSub_eq_false_of_not_mem (not_mem_defaultObj_payload (by decide) (by decide))
  rw [parseMetrics, hN, hI]
  simp only [Bool.or_self, Bool.false_eq_true, if_false]
  rw [show doubleEncode (.obj [(defaultKey, .num (.finite d))]) =
    encodeString (stringifyVal true (.obj [(defaultKey, .num (.finite d))])) from rfl]
  rw [show jsonParse (encodeString (stringifyVal true (.obj [(defaultKey, .num (.finite d))]))) =
    parseDoc true (encodeString (stringifyVal true (.obj [(defaultKey, .num (.finite d))])))
    from rfl]
  rw [jsonParse_encodeString true (stringifyVal true (.obj [(defaultKey, .num (.finite d))]))]
  dsimp only
  rw [show jsToChars (.str (stringifyVal true (.obj [(defaultKey, .num (.finite d))]))) =
    stringifyVal true (.obj [(defaultKey, .num (.finite d))]) from rfl]
  rw [jsonParse_defaultObj defaultKey d]

/-! ### getFinal dispatch -/

theorem getFinal_last_num (recs : List MetricDataRecord) (r : MetricDataRecord) (n : JNum)
    (hlast : recs.getLast? = some r) (hparse : parseMetrics r.data = some (.num n)) :
    getFinal (some recs) =
      if isNaNorInfinity n = false then .ok (some (.obj [(defaultKey, .num n)]))
      else .ok none := by
  rw [getFinal, hlast]
  dsimp only
  rw [hparse]

theorem getFinal_last_obj (recs : List MetricDataRecord) (r : MetricDataRecord)
    (fields : List (List Char × JsonValue))
    (hlast : recs.getLast? = some r) (hparse : parseMetrics r.data = some (.obj fields)) :
    getFinal (some recs) =
      if hasOwnField fields defaultKey then .ok (some (.obj fields)) else .ok none := by
  rw [getFinal, hlast]
  dsimp only
  rw [hparse]

theorem getFinal_last_arr (recs : List MetricDataRecord) (r : MetricDataRecord)
    (elems : List JsonValue)
    (hlast : recs.getLast? = some r) (hparse : parseMetrics r.data = some (.arr elems)) :
    getFinal (some recs) = .ok none := by
  rw [getFinal, hlast]
  dsimp only
  rw [hparse]

/-! ## Claim theorems -/

/-- C1: for every payload that is the sentinel (double-JSON) encoding of
`NaN`, of `Infinity`, of a plain finite number, or of an object
`{default: x}`, `parseMetrics` returns the original semantic value; and for
every final-metric record list whose last record decodes to an object
without a `default` key (or to an array), `getFinal` returns `undefined`
(`Except.ok none`) rather than raising. -/
theorem c1_metric_round_trip :
    (∀ d : Dec, parseMetrics (doubleEncode (.num (.finite d))) = some (.num (.finite d)))
    ∧ parseMetrics (doubleEncode (.num .nan)) = some (.num .nan)
    ∧ parseMetrics (doubleEncode (.num .posInf)) = some (.num .posInf)
    ∧ (∀ d : Dec, parseMetrics (doubleEncode (.obj [(defaultKey, .num (.finite d))])) =
        some (.obj [(defaultKey, .num (.finite d))]))
    ∧ (∀ (recs : List MetricDataRecord) (r : MetricDataRecord)
        (fields : List (List Char × JsonValue)),
        recs.getLast? = some r → parseMetrics r.data = some (.obj fields) →
        hasOwnField fields defaultKey = false → getFinal (some recs) = .ok none)
    ∧ (∀ (recs : List MetricDataRecord) (r : MetricDataRecord) (elems : List JsonValue),
        recs.getLast? = some r → parseMetrics r.data = some (.arr elems) →
        getFinal (some recs) = .ok none) := by
  refine ⟨parseMetrics_finiteNum, by rfl, by rfl, parseMetrics_defaultObj, ?_, ?_⟩
  · intro recs r fields hlast hparse hdef
    rw [getFinal_last_obj recs r fields hlast hparse, hdef]
    simp
  · intro recs r elems hlast hparse
    exact getFinal_last_arr recs r elems hlast hparse

/-- C1 witness: the round trip and the undefined results at concrete
payloads. -/
theorem c1_metric_round_trip_witness :
    parseMetrics (doubleEncode (.num (.finite ⟨15, -1⟩))) = some (.num (.finite ⟨15, -1⟩))
    ∧ parseMetrics (doubleEncode (.obj [(defaultKey, .num (.finite ⟨5, 0⟩))])) =
        some (.obj [(defaultKey, .num (.finite ⟨5, 0⟩))])
    ∧ getFinal (some [⟨doubleEncode (.obj [(['a'], .num (.finite ⟨1, 0⟩))])⟩]) = .ok none
    ∧ getFinal (some [⟨doubleEncode (.arr [.num (.finite ⟨1, 0⟩)])⟩]) = .ok none :=
  ⟨c1_metric_round_trip.1 ⟨15, -1⟩,
   c1_metric_round_trip.2.2.2.1 ⟨5, 0⟩,
   c1_metric_round_trip.2.2.2.2.1 _ _ [(['a'], .num (.finite ⟨1, 0⟩))] rfl (by rfl) (by rfl),
   c1_metric_round_trip.2.2.2.2.2 _ _ [.num (.finite ⟨1, 0⟩)] rfl (by rfl)⟩

/-- C2: `parseMetrics` performs exactly two decodes, selecting the tolerant
`JSON5` parser for both exactly when the raw text contains the substring
`NaN` or `Infinity`, and the strict `JSON` parser otherwise. -/
theorem c2_parser_selection :
    ∀ cs : List Char,
      ((hasSub cs nanLit || hasSub cs infinityLit) = true →
        parseMetrics cs = json5ParseTwice cs)
      ∧ ((hasSub cs nanLit || hasSub cs infinityLit) = false →
        parseMetrics cs = jsonParseTwice cs) := by
  intro cs
  constructor
  · intro h
    rw [parseMetrics, if_pos h]
    unfold json5ParseTwice
    rfl
  · intro h
    rw [parseMetrics, h]
    simp only [Bool.false_eq_true, if_false]
    unfold jsonParseTwice
    rfl

/-- C2 witness: a payload containing `NaN` takes the tolerant path, one
without takes the strict path. -/
theorem c2_parser_selection_witness :
    parseMetrics (doubleEncode (.num .nan)) = json5ParseTwice (doubleEncode (.num .nan))
    ∧ parseMetrics ['5'] = jsonParseTwice ['5'] :=
  ⟨(c2_parser_selection (doubleEncode (.num .nan))).1 (by rfl),
   (c2_parser_selection ['5']).2 (by rfl)⟩

/-- C9: `isNaNorInfinity` detects `NaN` and positive infinity but not
negative infinity; consequently a final-metric list whose last record
decodes to `NaN` or `+Infinity` yields `undefined` from `getFinal`, while
one decoding to `-Infinity` yields `{default: -Infinity}`. -/
theorem c9_nonfinite_asymmetry :
    isNaNorInfinity .nan = true
    ∧ isNaNorInfinity .posInf = true
    ∧ isNaNorInfinity .negInf = false
    ∧ (∀ (recs : List MetricDataRecord) (r : MetricDataRecord),
        recs.getLast? = some r → parseMetrics r.data = some (.num .nan) →
        getFinal (some recs) = .ok none)
    ∧ (∀ (recs : List MetricDataRecord) (r : MetricDataRecord),
        recs.getLast? = some r → parseMetrics r.data = some (.num .posInf) →
        getFinal (some recs) = .ok none)
    ∧ (∀ (recs : List MetricDataRecord) (r : MetricDataRecord),
        recs.getLast? = some r → parseMetrics r.data = some (.num .negInf) →
        getFinal (some recs) = .ok (some (.obj [(defaultKey, .num .negInf)]))) := by
  refine ⟨rfl, rfl, rfl, ?_, ?_, ?_⟩ <;>
    intro recs r hlast hparse <;> rw [getFinal_last_num recs r _ hlast hparse] <;> rfl

/-- C9 witness: concrete sentinel payloads for the three non-finite
values. -/
theorem c9_nonfinite_asymmetry_witness :
    getFinal (some [⟨doubleEncode (.num .nan)⟩]) = .ok none
    ∧ getFinal (some [⟨doubleEncode (.num .posInf)⟩]) = .ok none
    ∧ getFinal (some [⟨doubleEncode (.num .negInf)⟩]) =
        .ok (some (.obj [(defaultKey, .num .negInf)])) :=
  ⟨c9_nonfinite_asymmetry.2.2.2.1 _ _ rfl (by rfl),
   c9_nonfinite_asymmetry.2.2.2.2.1 _ _ rfl (by rfl),
   c9_nonfinite_asymmetry.2.2.2.2.2 _ _ rfl (by rfl)⟩

/-- C3: for every error translated by `handleError` at an
orchestrator-operation handler (which all pass the default error code 500),
the status is 404 exactly when the error is an `NNIError` named
`NOT_FOUND`, 500 otherwise, and the body is always `{error: message}`. -/
theorem c3_handle_error :
    ∀ (err : JsError) (isFatal : Bool),
      ((err.isNNIError = true ∧ err.name = notFoundName) →
        (handleError err isFatal orchestratorErrorCode).1.status = 404)
      ∧ (¬(err.isNNIError = true ∧ err.name = notFoundName) →
        (handleError err isFatal orchestratorErrorCode).1.status = 500)
      ∧ (handleError err isFatal orchestratorErrorCode).1.body = .errorBody err.message := by
  intro err isFatal
  refine ⟨?_, ?_, rfl⟩
  · intro h
    rw [handleError]
    simp only [if_pos h]
  · intro h
    rw [handleError]
    simp only [if_neg h]
    rfl

/-- C3 witness: a `NOT_FOUND` `NNIError` gets 404, a plain error gets 500,
both with the message in the body. -/
theorem c3_handle_error_witness :
    (handleError ⟨true, notFoundName, failedStatus⟩ false orchestratorErrorCode).1.status = 404
    ∧ (handleError ⟨false, stderrName, failedStatus⟩ false
        orchestratorErrorCode).1.status = 500
    ∧ (handleError ⟨true, notFoundName, failedStatus⟩ false
        orchestratorErrorCode).1.body = .errorBody failedStatus :=
  ⟨(c3_handle_error ⟨true, notFoundName, failedStatus⟩ false).1 (by exact ⟨rfl, rfl⟩),
   (c3_handle_error ⟨false, stderrName, failedStatus⟩ false).2.1 (by simp),
   (c3_handle_error ⟨true, notFoundName, failedStatus⟩ false).2.2⟩

/-- C4: in the `DELETE /experiment` handler, when the top half completes
the trace is exactly top-half-completed, then response-sent, then
bottom-half-invoked: the caller is acknowledged after
`stopExperimentTopHalf` and strictly before `stopExperimentBottomHalf`. -/
theorem c4_stop_ordering :
    ∀ r : Except JsError Unit, r = .ok () →
      stopHandlerTrace r = [.topHalfCompleted, .responseSent, .bottomHalfInvoked]
      ∧ (stopHandlerTrace r).indexOf .topHalfCompleted <
          (stopHandlerTrace r).indexOf .responseSent
      ∧ (stopHandlerTrace r).indexOf .responseSent <
          (stopHandlerTrace r).indexOf .bottomHalfInvoked := by
  intro r h
  subst h
  refine ⟨rfl, by decide, by decide⟩

/-- C4 witness: the ordering at the successful top half. -/
theorem c4_stop_ordering_witness :
    stopHandlerTrace (.ok ()) =
      [.topHalfCompleted, .responseSent, .bottomHalfInvoked]
    ∧ (stopHandlerTrace (.ok ())).indexOf .responseSent <
        (stopHandlerTrace (.ok ())).indexOf .bottomHalfInvoked :=
  ⟨(c4_stop_ordering (.ok ()) rfl).1, (c4_stop_ordering (.ok ()) rfl).2.2⟩

/-- Message preservation of the spec-modelled `NNIError.FromError`. -/
theorem nniErrorFromError_message (e : JsError) :
    (nniErrorFromError e).message = e.message := by
  rw [nniErrorFromError]
  split <;> rfl

/-- C5: if `setClusterMetadata` fails for any key of the request, the
cluster-metadata handler reports the first failure through the standard
error translation with the fatal flag, so the process exits. -/
theorem c5_cluster_metadata_fatal :
    ∀ (keys : List String) (setMeta : String → Except JsError Unit),
      (∃ k ∈ keys, ∃ e, setMeta k = .error e) →
      ∃ e, runSetClusterMetadata keys setMeta = .error e
        ∧ setClusterMetaDataHandler keys setMeta =
            handleError (nniErrorFromError e) true orchestratorErrorCode
        ∧ (setClusterMetaDataHandler keys setMeta).2 = true
        ∧ (setClusterMetaDataHandler keys setMeta).1.body = .errorBody e.message := by
  intro keys
  induction keys with
  | nil =>
    intro setMeta h
    obtain ⟨k, hk, _⟩ := h
    exact absurd hk (List.not_mem_nil k)
  | cons k ks ih =>
    intro setMeta h
    cases hset : setMeta k with
    | error e =>
      refine ⟨e, ?_, ?_, ?_, ?_⟩
      · rw [runSetClusterMetadata, hset]
      · rw [setClusterMetaDataHandler, runSetClusterMetadata, hset]
      · rw [setClusterMetaDataHandler, runSetClusterMetadata, hset]
        rfl
      · rw [setClusterMetaDataHandler, runSetClusterMetadata, hset]
        rw [show (handleError (nniErrorFromError e) true orchestratorErrorCode).1.body =
          .errorBody (nniErrorFromError e).message from rfl]
        rw [nniErrorFromError_message]
    | ok u =>
      obtain ⟨k', hk', e', he'⟩ := h
      rcases List.mem_cons.mp hk' with hkk | hks
      · rw [hkk] at he'
        rw [he'] at hset
        exact absurd hset (by simp)
      · have hrun : runSetClusterMetadata (k :: ks) setMeta =
            runSetClusterMetadata ks setMeta := by
          rw [runSetClusterMetadata, hset]
        have hhandler : setClusterMetaDataHandler (k :: ks) setMeta =
            setClusterMetaDataHandler ks setMeta := by
          rw [setClusterMetaDataHandler, setClusterMetaDataHandler, hrun]
        obtain ⟨e, h1, h2, h3, h4⟩ := ih setMeta ⟨k', hks, e', he'⟩
        exact ⟨e, by rw [hrun, h1], by rw [hhandler, h2], by rw [hhandler, h3],
          by rw [hhandler, h4]⟩

/-- C5 witness: a request whose single key is rejected terminates the
process. -/
theorem c5_cluster_metadata_fatal_witness :
    (setClusterMetaDataHandler [notFoundName]
      (fun _ => .error ⟨false, stderrName, failedStatus⟩)).2 = true := by
  obtain ⟨e, h1, h2, h3, h4⟩ := c5_cluster_metadata_fatal [notFoundName]
    (fun _ => .error ⟨false, stderrName, failedStatus⟩)
    ⟨notFoundName, by simp, ⟨false, stderrName, failedStatus⟩, rfl⟩
  exact h3

/-- C7: each job returned by the trial-job handlers passes through
`setErrorPathForFailedJob`: a `FAILED` job with a defined `logPath` gets
`stderrPath := path.join(logPath, 'stderr')` and no other field changes;
every other job is returned unchanged; the list handler is exactly the map
of this transformation and the single-job handler applies it once. -/
theorem c7_error_path :
    ∀ j : TrialJobInfo,
      (∀ lp, j.status = failedStatus → j.logPath = some lp →
        setErrorPathForFailedJobCore j =
          { j with stderrPath := some (pathJoin lp stderrName) })
      ∧ ((j.status ≠ failedStatus ∨ j.logPath = none) →
        setErrorPathForFailedJobCore j = j)
      ∧ (∀ jobs : List TrialJobInfo,
          listTrialJobsHandler jobs = jobs.map setErrorPathForFailedJobCore)
      ∧ getTrialJobHandler j = setErrorPathForFailedJobCore j
      ∧ setErrorPathForFailedJob (some j) = some (setErrorPathForFailedJobCore j)
      ∧ setErrorPathForFailedJob none = none := by
  intro j
  refine ⟨?_, ?_, fun jobs => rfl, rfl, rfl, rfl⟩
  · intro lp hs hlp
    rw [setErrorPathForFailedJobCore, if_pos hs, hlp]
  · intro h
    rw [setErrorPathForFailedJobCore]
    rcases h with h | h
    · rw [if_neg h]
    · by_cases hs : j.status = failedStatus
      · rw [if_pos hs, h]
      · rw [if_neg hs]

/-- C7 witness: a failed job with a log path gets its stderr path set,
leaving the other fields untouched; a running job is unchanged. -/
theorem c7_error_path_witness :
    setErrorPathForFailedJobCore
        ⟨notFoundName, failedStatus, some stderrName, none, 3, some 1, none⟩ =
      ⟨notFoundName, failedStatus, some stderrName, some (pathJoin stderrName stderrName),
        3, some 1, none⟩
    ∧ setErrorPathForFailedJobCore ⟨notFoundName, slashStr, some stderrName, none, 3, some 1, none⟩ =
      ⟨notFoundName, slashStr, some stderrName, none, 3, some 1, none⟩ := by
  constructor
  · have h := (c7_error_path
      ⟨notFoundName, failedStatus, some stderrName, none, 3, some 1, none⟩).1
      stderrName rfl rfl
    rw [h]
  · exact (c7_error_path ⟨notFoundName, slashStr, some stderrName, none, 3, some 1, none⟩).2.1
      (Or.inl (by decide))

/-- C8: on a successful customized-trial injection the handler responds
with body `{sequenceId}` carrying the id returned by
`addCustomizedTrialJob`, and the only orchestrator call it makes is
`addCustomizedTrialJob` applied to the stringified request body. -/
theorem c8_add_trial :
    ∀ (reqBody : JsonValue) (add : List Char → Except JsError Nat) (n : Nat),
      add (stringifyVal false reqBody) = .ok n →
      (addTrialJobHandler reqBody add).1 =
        ({ status := 200, body := .sequenceIdBody n }, false)
      ∧ (addTrialJobHandler reqBody add).2 =
          [(addCustomizedTrialJobName, stringifyVal false reqBody)] := by
  intro reqBody add n h
  constructor
  · rw [addTrialJobHandler]
    dsimp only
    rw [h]
  · rfl

/-- C8 witness: injecting a null body with a manager returning id 7. -/
theorem c8_add_trial_witness :
    (addTrialJobHandler .null (fun _ => .ok 7)).1 =
      ({ status := 200, body := .sequenceIdBody 7 }, false)
    ∧ (addTrialJobHandler .null (fun _ => .ok 7)).2 =
        [(addCustomizedTrialJobName, stringifyVal false .null)] :=
  c8_add_trial .null (fun _ => .ok 7) 7 rfl

/-! ### Hyperband table evaluation -/

theorem specFirstRung_eval :
    specFirstRung 81 3 = [(81, 1), (34, 3), (15, 9), (8, 27), (5, 81)] := by
  rw [specFirstRung, show sMax 3 81 = 4 from by decide,
    show (List.range (4 + 1)).reverse = [4, 3, 2, 1, 0] from by decide]
  simp only [List.map]
  rw [show n0Ceil 4 4 3 = 81 from by rw [n0Ceil, Int.ceil_eq_iff]; norm_num,
    show n0Ceil 4 3 3 = 34 from by rw [n0Ceil, Int.ceil_eq_iff]; norm_num,
    show n0Ceil 4 2 3 = 15 from by rw [n0Ceil, Int.ceil_eq_iff]; norm_num,
    show n0Ceil 4 1 3 = 8 from by rw [n0Ceil, Int.ceil_eq_iff]; norm_num,
    show n0Ceil 4 0 3 = 5 from by rw [n0Ceil, Int.ceil_eq_iff]; norm_num,
    show r0Formula 81 3 4 = 1 from by rw [r0Formula]; norm_num,
    show r0Formula 81 3 3 = 3 from by rw [r0Formula]; norm_num,
    show r0Formula 81 3 2 = 9 from by rw [r0Formula]; norm_num,
    show r0Formula 81 3 1 = 27 from by rw [r0Formula]; norm_num,
    show r0Formula 81 3 0 = 81 from by rw [r0Formula]; norm_num]

theorem correctedFirstRung_eval :
    correctedFirstRung 81 3 = hyperbandDocFirstRung := by
  rw [correctedFirstRung, show sMax 3 81 = 4 from by decide,
    show (List.range (4 + 1)).reverse = [4, 3, 2, 1, 0] from by decide]
  simp only [List.map]
  rw [show r0Formula 81 3 4 = 1 from by rw [r0Formula]; norm_num,
    show r0Formula 81 3 3 = 3 from by rw [r0Formula]; norm_num,
    show r0Formula 81 3 2 = 9 from by rw [r0Formula]; norm_num,
    show r0Formula 81 3 1 = 27 from by rw [r0Formula]; norm_num,
    show r0Formula 81 3 0 = 81 from by rw [r0Formula]; norm_num,
    hyperbandDocFirstRung]
  norm_num [n0Floor]

/-- C6 counterexample: the closed-form `n_0(s) = ceil((s_max+1)/(s+1) *
eta^s)` does not reproduce the documented table at `R = 81`, `eta = 3`: at
bucket `s = 3` it yields 34 while the documented table (and likewise at
`s = 2` and `s = 1`, where it yields 15 and 8) lists 27. -/
theorem c6_hyperband_table_counterexample :
    n0Ceil (sMax 3 81) 3 3 = 34
    ∧ hyperbandDocFirstRung.get? 1 = some (27, 3)
    ∧ specFirstRung 81 3 ≠ hyperbandDocFirstRung := by
  refine ⟨?_, rfl, ?_⟩
  · rw [show sMax 3 81 = 4 from by decide, n0Ceil, Int.ceil_eq_iff]
    norm_num
  · intro h
    rw [specFirstRung_eval, hyperbandDocFirstRung] at h
    have h1 := congrArg (fun l => l.get? 1) h
    norm_num at h1

/-- C6 amended: bucket generation with `R = 81`, `eta = 3` yields
`s_max = 4` and `r_0(s) = R * eta^(-s)` as claimed, but the first-rung
counts of the documented table equal `floor((s_max+1)/(s+1)) * eta^s`
(the integer-division closed form); the claimed ceiling form
`ceil((s_max+1)/(s+1) * eta^s)` yields `81, 34, 15, 8, 5` instead. -/
theorem c6_hyperband_table :
    sMax 3 81 = 4
    ∧ correctedFirstRung 81 3 = hyperbandDocFirstRung
    ∧ specFirstRung 81 3 = [(81, 1), (34, 3), (15, 9), (8, 27), (5, 81)] :=
  ⟨by decide, correctedFirstRung_eval, specFirstRung_eval⟩

/-! ### Sorting lemmas -/

theorem jsSlice_eq {α : Type} (items : List α) : jsSlice items = items := by
  rw [jsSlice]
  induction items with
  | nil => rfl
  | cons x xs ih => simp only [List.foldr_cons, ih]

theorem insertCmp_perm {α : Type} (cmp : α → α → Int) (x : α) :
    ∀ l : List α, (insertCmp cmp x l).Perm (x :: l) := by
  intro l
  induction l with
  | nil => rfl
  | cons y ys ih =>
    rw [insertCmp]
    by_cases h : cmp x y ≤ 0
    · rw [if_pos h]
    · rw [if_neg h]
      exact (List.Perm.cons y ih).trans (List.Perm.swap x y ys)

theorem sortCmp_perm {α : Type} (cmp : α → α → Int) :
    ∀ l : List α, (sortCmp cmp l).Perm l := by
  intro l
  induction l with
  | nil => rfl
  | cons x xs ih =>
    rw [sortCmp]
    exact (insertCmp_perm cmp x (sortCmp cmp xs)).trans (List.Perm.cons x ih)

theorem mem_insertCmp {α : Type} {cmp : α → α → Int} {x y : α} {l : List α}
    (h : y ∈ insertCmp cmp x l) : y = x ∨ y ∈ l := by
  have := (insertCmp_perm cmp x l).mem_iff.mp h
  simpa using this

theorem pairwise_insertCmp {α : Type} {P : α → α → Prop} {cmp : α → α → Int}
    (htrans : ∀ a b c, P a b → P b c → P a c)
    (hcmp : ∀ a b, (cmp a b ≤ 0 → P a b) ∧ (0 < cmp a b → P b a)) (x : α) :
    ∀ l : List α, l.Pairwise P → (insertCmp cmp x l).Pairwise P := by
  intro l
  induction l with
  | nil =>
    intro _
    exact List.pairwise_singleton P x
  | cons y ys ih =>
    intro hp
    rw [List.pairwise_cons] at hp
    rw [insertCmp]
    by_cases h : cmp x y ≤ 0
    · rw [if_pos h]
      have hxy : P x y := (hcmp x y).1 h
      refine List.Pairwise.cons ?_ (List.Pairwise.cons hp.1 hp.2)
      intro z hz
      rcases List.mem_cons.mp hz with hz | hz
      · rw [hz]; exact hxy
      · exact htrans x y z hxy (hp.1 z hz)
    · rw [if_neg h]
      have hyx : P y x := (hcmp x y).2 (by omega)
      refine List.Pairwise.cons ?_ (ih hp.2)
      intro z hz
      rcases mem_insertCmp hz with hz | hz
      · rw [hz]; exact hyx
      · exact hp.1 z hz

theorem pairwise_sortCmp {α : Type} {P : α → α → Prop} {cmp : α → α → Int}
    (htrans : ∀ a b c, P a b → P b c → P a c)
    (hcmp : ∀ a b, (cmp a b ≤ 0 → P a b) ∧ (0 < cmp a b → P b a)) :
    ∀ l : List α, (sortCmp cmp l).Pairwise P := by
  intro l
  induction l with
  | nil => exact List.Pairwise.nil
  | cons x xs ih =>
    rw [sortCmp]
    exact pairwise_insertCmp htrans hcmp x (sortCmp cmp xs) ih

theorem sortCompare_compat (key : List Char) (desc : Bool) :
    ∀ a b, (sortCompare key desc a b ≤ 0 →
        (badSortKey (getField a key) = true → badSortKey (getField b key) = true))
      ∧ (0 < sortCompare key desc a b →
        (badSortKey (getField b key) = true → badSortKey (getField a key) = true)) := by
  intro a b
  rw [sortCompare]
  by_cases ha : badSortKey (getField a key) = true
  · rw [if_pos ha]
    exact ⟨fun h => absurd h (by omega), fun _ _ => ha⟩
  · rw [if_neg ha]
    by_cases hb : badSortKey (getField b key) = true
    · rw [if_pos hb]
      refine ⟨fun _ h => absurd h ha, fun h => absurd h (by omega)⟩
    · rw [if_neg hb]
      refine ⟨fun _ h => absurd h ha, fun _ h => absurd h hb⟩

/-- C10: `copyAndSort` is non-mutating and pushes disqualified keys to the
end: it sorts a `slice(0)` copy (the copy equals the input, which is left
untouched), the result is a permutation of the input, and in the result a
row whose sort key is `undefined`, non-finite or an object is never
followed by a row with an ordinary comparable key. -/
theorem c10_copyAndSort :
    ∀ (items : List (List (List Char × JsVal))) (columnKey : List Char) (desc : Bool),
      jsSlice items = items
      ∧ (copyAndSort items columnKey desc).Perm items
      ∧ (copyAndSort items columnKey desc).Pairwise
          (fun a b => badSortKey (getField a columnKey) = true →
            badSortKey (getField b columnKey) = true) := by
  intro items columnKey desc
  refine ⟨jsSlice_eq items, ?_, ?_⟩
  · rw [copyAndSort, jsSlice_eq]
    exact sortCmp_perm _ items
  · rw [copyAndSort]
    exact pairwise_sortCmp (fun a b c hab hbc h => hbc (hab h))
      (sortCompare_compat columnKey desc) _

/-- C10 witness: a table with a missing key, an object-valued key and two
string keys is rearranged so the disqualified rows come last, keeping all
rows. -/
theorem c10_copyAndSort_witness :
    (copyAndSort [[(['k'], JsVal.jsUndefined)], [(['k'], JsVal.str ['b'])],
        [(['k'], JsVal.str ['a'])]] ['k'] false).Perm
      [[(['k'], JsVal.jsUndefined)], [(['k'], JsVal.str ['b'])], [(['k'], JsVal.str ['a'])]]
    ∧ (copyAndSort [[(['k'], JsVal.jsUndefined)], [(['k'], JsVal.str ['b'])],
        [(['k'], JsVal.str ['a'])]] ['k'] false).Pairwise
        (fun a b => badSortKey (getField a ['k']) = true →
          badSortKey (getField b ['k']) = true) :=
  ⟨(c10_copyAndSort [[(['k'], JsVal.jsUndefined)], [(['k'], JsVal.str ['b'])],
      [(['k'], JsVal.str ['a'])]] ['k'] false).2.1,
   (c10_copyAndSort [[(['k'], JsVal.jsUndefined)], [(['k'], JsVal.str ['b'])],
      [(['k'], JsVal.str ['a'])]] ['k'] false).2.2⟩
